import Mathlib

/-!
Verification of the TLS ClientHello fingerprint engine of this repository.

The definitions below are a shallow embedding of the Python sources:

* `parse_tls_client_hello`, `calculate_ja4_improved`, `extract_ja4_from_pcap`
  embed the functions of the same names in `src/scripts/ja4_improved.py`;
* `most_common`, `process_signatures` embed the per-framework aggregation
  inside `process_all_pcaps` of `src/calculate_all_improved_ja4.py`.

Byte buffers are `List Nat` (one entry per byte); Python's guarded indexing
is `List.getD` (every index the source reaches is guarded by an explicit
length comparison, exactly as in the source, so the default value is never
observable).
-/

set_option maxRecDepth 10000

namespace Ja4

/-- One byte read, `raw_data[i]` (guarded in the source by a length check). -/
def readU8 (raw : List Nat) (i : Nat) : Nat := raw.getD i 0

/-- `struct.unpack('>H', raw_data[i:i+2])[0]`: big-endian 16-bit read. -/
def readU16 (raw : List Nat) (i : Nat) : Nat :=
  256 * raw.getD i 0 + raw.getD (i + 1) 0

/-- Result dictionary of `parse_tls_client_hello` (keys `version`,
`cipher_suites`, `extensions`, `alpn`, `sni`; the constant `valid: True`
key is omitted). -/
structure TlsData where
  version : Nat
  cipher_suites : List Nat
  extensions : List Nat
  alpn : Bool
  sni : Bool
deriving DecidableEq, Repr

/-- The cipher-suite loop of `parse_tls_client_hello`
(`for i in range(0, cipher_suites_len, 2)` with its `break` guard):
`k` is the number of remaining loop iterations, i.e. `range(0, L, 2)` has
`(L + 1) / 2` elements.  Returns the ciphers read and the final offset. -/
def read_cipher_fields (raw : List Nat) : Nat → Nat → List Nat × Nat
  | offset, 0 => ([], offset)
  | offset, k + 1 =>
    if raw.length ≤ offset + 1 then ([], offset)
    else
      let c := readU16 raw offset
      let r := read_cipher_fields raw (offset + 2) k
      (c :: r.1, r.2)

/-- The extensions loop of `parse_tls_client_hello`
(`while ext_offset < offset + extensions_len and ext_offset < len(raw_data) - 3`),
written with explicit fuel so that it is structurally recursive.  `endPos` is
`offset + extensions_len` (fixed during the loop), `pos` is `ext_offset`;
`pos + 4 ≤ raw.length` is Python's `ext_offset < len(raw_data) - 3`.
Each iteration advances `pos` by at least 4 while requiring `pos < endPos`,
so `endPos - pos` iterations always suffice and the fuel never runs out
before the loop condition fails. -/
def read_extensions_fuel (raw : List Nat) (endPos : Nat) : Nat → Nat → List Nat
  | _, 0 => []
  | pos, fuel + 1 =>
    if pos < endPos ∧ pos + 4 ≤ raw.length then
      readU16 raw pos ::
        read_extensions_fuel raw endPos (pos + 4 + readU16 raw (pos + 2)) fuel
    else []

/-- The extensions loop, entered at `pos` with block end `endPos`. -/
def read_extensions (raw : List Nat) (endPos pos : Nat) : List Nat :=
  read_extensions_fuel raw endPos pos (endPos - pos)

/-- `parse_tls_client_hello` of `src/scripts/ja4_improved.py`.

Offset bookkeeping of the source, inlined: `offset = 9` (record header 5 +
handshake header 4); `offset += 32` (skip random) gives `41`; the session-ID
length is read at index 41 and the offset then becomes `42 + session_id_len`.
Note the source never skips the 2-byte client-version field of the handshake
body (it takes `version` from the record header, bytes 1–2), so 41 — not
43 — is where it reads the session-ID length. -/
def parse_tls_client_hello (raw : List Nat) : Option TlsData :=
  if raw.length < 5 then none
  else if raw.getD 0 0 ≠ 0x16 then none
  else
    let version := readU16 raw 1
    if raw.length < 6 then none
    else if raw.getD 5 0 ≠ 0x01 then none
    else if raw.length ≤ 9 then none
    else if raw.length ≤ 41 then none
    else
      let session_id_len := raw.getD 41 0
      let offset1 := 42 + session_id_len
      if raw.length ≤ offset1 + 1 then none
      else
        let cipher_suites_len := readU16 raw offset1
        let cres := read_cipher_fields raw (offset1 + 2) ((cipher_suites_len + 1) / 2)
        let cipher_suites := cres.1
        let offset2 := cres.2
        if raw.length ≤ offset2 then none
        else
          let compression_len := raw.getD offset2 0
          let offset3 := offset2 + 1 + compression_len
          if raw.length ≤ offset3 + 1 then none
          else
            let extensions_len := readU16 raw offset3
            let extensions := read_extensions raw (offset3 + 2 + extensions_len) (offset3 + 2)
            some { version := version
                   cipher_suites := cipher_suites
                   extensions := extensions
                   alpn := extensions.contains 16
                   sni := extensions.contains 0 }

/-! ### The fingerprint encoder `calculate_ja4_improved` -/

/-- `version_map.get(version, 't13')` of `calculate_ja4_improved`. -/
def version_map_get (v : Nat) : String :=
  if v = 0x0301 then "t10"
  else if v = 0x0302 then "t11"
  else if v = 0x0303 then "t12"
  else if v = 0x0304 then "t13"
  else "t13"

/-- Python `f"{n:02d}"`: decimal, zero-padded to at least two digits. -/
def format02 (n : Nat) : String :=
  if n < 10 then "0" ++ toString n else toString n

/-- Python `f"{n:04x}"`: lowercase hex, zero-padded to at least four digits. -/
def hexPad4 (n : Nat) : String :=
  let ds := Nat.toDigits 16 n
  String.mk (List.replicate (4 - ds.length) '0' ++ ds)

/-- Python `sorted` on a list of numbers (ascending; on `Nat` any correct
sort yields the same list, so insertion sort is an exact model). -/
def pySorted (l : List Nat) : List Nat := l.insertionSort (· ≤ ·)

/-- `','.join(f"{c:04x}" for c in sorted(l))` — the string that is hashed. -/
def sortedHexJoined (l : List Nat) : String :=
  String.intercalate "," ((pySorted l).map hexPad4)

/-! SHA-256 (the `hashlib.sha256(...).hexdigest()` collaborator), implemented
from FIPS 180-4 over byte lists, all arithmetic on `Nat` reduced mod `2^32`. -/

/-- Truncation to an unsigned 32-bit value. -/
def u32mask (x : Nat) : Nat := x % 4294967296

/-- 32-bit right rotation. -/
def rotr32 (x n : Nat) : Nat := u32mask ((x >>> n) ||| (x <<< (32 - n)))

/-- SHA-256 `Ch` function. -/
def shaCh (x y z : Nat) : Nat := (x &&& y) ^^^ ((x ^^^ 4294967295) &&& z)

/-- SHA-256 `Maj` function. -/
def shaMaj (x y z : Nat) : Nat := (x &&& y) ^^^ (x &&& z) ^^^ (y &&& z)

/-- SHA-256 `Σ0`. -/
def bigSigma0 (x : Nat) : Nat := rotr32 x 2 ^^^ rotr32 x 13 ^^^ rotr32 x 22

/-- SHA-256 `Σ1`. -/
def bigSigma1 (x : Nat) : Nat := rotr32 x 6 ^^^ rotr32 x 11 ^^^ rotr32 x 25

/-- SHA-256 `σ0`. -/
def smallSigma0 (x : Nat) : Nat := rotr32 x 7 ^^^ rotr32 x 18 ^^^ (x >>> 3)

/-- SHA-256 `σ1`. -/
def smallSigma1 (x : Nat) : Nat := rotr32 x 17 ^^^ rotr32 x 19 ^^^ (x >>> 10)

/-- SHA-256 round constants (FIPS 180-4 §4.2.2, written in decimal). -/
def shaK : List Nat :=
  [1116352408, 1899447441, 3049323471, 3921009573, 961987163,
   1508970993, 2453635748, 2870763221, 3624381080, 310598401,
   607225278, 1426881987, 1925078388, 2162078206, 2614888103,
   3248222580, 3835390401, 4022224774, 264347078, 604807628,
   770255983, 1249150122, 1555081692, 1996064986, 2554220882,
   2821834349, 2952996808, 3210313671, 3336571891, 3584528711,
   113926993, 338241895, 666307205, 773529912, 1294757372,
   1396182291, 1695183700, 1986661051, 2177026350, 2456956037,
   2730485921, 2820302411, 3259730800, 3345764771, 3516065817,
   3600352804, 4094571909, 275423344, 430227734, 506948616,
   659060556, 883997877, 958139571, 1322822218, 1537002063,
   1747873779, 1955562222, 2024104815, 2227730452, 2361852424,
   2428436474, 2756734187, 3204031479, 3329325298]

/-- SHA-256 initial hash value (FIPS 180-4 §5.3.3, written in decimal). -/
def shaH0 : List Nat :=
  [1779033703, 3144134277, 1013904242, 2773480762,
   1359893119, 2600822924, 528734635, 1541459225]

/-- SHA-256 padding: append `0x80`, zeros to 56 mod 64, then the bit length
as 8 big-endian bytes. -/
def sha256pad (msg : List Nat) : List Nat :=
  let bitLen := 8 * msg.length
  let zeros := (120 - (msg.length + 1) % 64) % 64
  msg ++ 0x80 :: (List.replicate zeros 0 ++
    (List.range 8).map (fun i => (bitLen >>> (56 - 8 * i)) % 256))

/-- The 16 big-endian 32-bit words of one 64-byte block. -/
def blockWords (block : List Nat) : List Nat :=
  (List.range 16).map (fun i =>
    (block.getD (4 * i) 0 <<< 24) + (block.getD (4 * i + 1) 0 <<< 16) +
    (block.getD (4 * i + 2) 0 <<< 8) + block.getD (4 * i + 3) 0)

/-- Message-schedule expansion of the 16 block words to 64 words. -/
def msgSchedule (w16 : List Nat) : List Nat :=
  (List.range 48).foldl (fun w i =>
    w ++ [u32mask (smallSigma1 (w.getD (i + 14) 0) + w.getD (i + 9) 0 +
                   smallSigma0 (w.getD (i + 1) 0) + w.getD i 0)]) w16

/-- One SHA-256 block compression. -/
def shaCompress (h : List Nat) (block : List Nat) : List Nat :=
  let w := msgSchedule (blockWords block)
  let s := (List.range 64).foldl (fun s t =>
    let a := s.getD 0 0
    let b := s.getD 1 0
    let c := s.getD 2 0
    let d := s.getD 3 0
    let e := s.getD 4 0
    let f := s.getD 5 0
    let g := s.getD 6 0
    let hh := s.getD 7 0
    let t1 := u32mask (hh + bigSigma1 e + shaCh e f g + shaK.getD t 0 + w.getD t 0)
    let t2 := u32mask (bigSigma0 a + shaMaj a b c)
    [u32mask (t1 + t2), a, b, c, u32mask (d + t1), e, f, g]) h
  List.zipWith (fun x y => u32mask (x + y)) h s

/-- SHA-256 digest (eight 32-bit words) of a byte list. -/
def sha256bytes (msg : List Nat) : List Nat :=
  let padded := sha256pad msg
  (List.range (padded.length / 64)).foldl
    (fun h i => shaCompress h ((padded.drop (64 * i)).take 64)) shaH0

/-- Lowercase hex, zero-padded to at least eight digits. -/
def hexPad8 (n : Nat) : String :=
  let ds := Nat.toDigits 16 n
  String.mk (List.replicate (8 - ds.length) '0' ++ ds)

/-- `hashlib.sha256(s.encode()).hexdigest()`.  The strings hashed by the
encoder are ASCII (hex digits and commas), for which `Char.toNat` per
character is exactly Python's UTF-8 `encode`. -/
def sha256hexOfString (s : String) : String :=
  String.join ((sha256bytes (s.data.map Char.toNat)).map hexPad8)

/-- `hashlib.sha256(s.encode()).hexdigest()[:12]`. -/
def sha256hex12 (s : String) : String := (sha256hexOfString s).take 12

/-- The `part1` local of `calculate_ja4_improved`:
`f"{protocol}{sni}{cipher_count_str}{ext_count_str}{alpn}"`. -/
def ja4_part1 (t : TlsData) : String :=
  version_map_get t.version ++
  (if t.sni then "d" else "i") ++
  format02 (min t.cipher_suites.length 99) ++
  format02 (min t.extensions.length 99) ++
  (if t.alpn then "h2" else "00")

/-- `calculate_ja4_improved` of `src/scripts/ja4_improved.py`. -/
def calculate_ja4_improved (t : TlsData) : String :=
  ja4_part1 t ++ "_" ++
  sha256hex12 (sortedHexJoined t.cipher_suites) ++ "_" ++
  sha256hex12 (sortedHexJoined t.extensions)

/-! ### The per-pcap pipeline `extract_ja4_from_pcap` -/

/-- One endpoint: `(ip address, tcp port)` as compared by Python's tuple
order (string lexicographic on the address, then numeric on the port). -/
abbrev Endpoint := String × Nat

/-- A normalized bidirectional connection identifier (sorted endpoint pair). -/
abbrev ConnId := Endpoint × Endpoint

/-- A captured packet as `extract_ja4_from_pcap` sees it: scapy layer
presence flags, the IP/TCP metadata, and the raw payload bytes. -/
structure Packet where
  hasIP : Bool
  hasTCP : Bool
  src : String
  dst : String
  sport : Nat
  dport : Nat
  hasRaw : Bool
  payload : List Nat
deriving DecidableEq, Repr

/-- Python `<` on `(address, port)` tuples (lexicographic). -/
def epLt (a b : Endpoint) : Prop :=
  a.1 < b.1 ∨ (a.1 = b.1 ∧ a.2 < b.2)

instance (a b : Endpoint) : Decidable (epLt a b) := by
  unfold epLt; exact inferInstance

/-- Python `tuple(sorted([a, b]))` for exactly two tuples: swap iff `b < a`
(the sort is stable). -/
def sort2 (a b : Endpoint) : ConnId :=
  if epLt b a then (b, a) else (a, b)

/-- The `conn_id` of a packet:
`tuple(sorted([(ip.src, tcp.sport), (ip.dst, tcp.dport)]))`. -/
def connId (p : Packet) : ConnId :=
  sort2 (p.src, p.sport) (p.dst, p.dport)

/-- One entry of the `signatures` list built by `extract_ja4_from_pcap`. -/
structure SigInfo where
  signature : String
  src : String
  dst : String
  sport : Nat
  dport : Nat
  version : Nat
  ciphers : Nat
  extensions : Nat
deriving DecidableEq, Repr

/-- The dictionary appended to `signatures` for an accepted packet. -/
def mkSigInfo (p : Packet) (t : TlsData) : SigInfo :=
  { signature := calculate_ja4_improved t
    src := p.src
    dst := p.dst
    sport := p.sport
    dport := p.dport
    version := t.version
    ciphers := t.cipher_suites.length
    extensions := t.extensions.length }

/-- The packet loop of `extract_ja4_from_pcap`, with the mutable
`seen_connections` set made an explicit argument.  Branches mirror the
source's `continue` structure: layer check, port-443 check, seen check,
`Raw` check, parse check; only a successful parse inserts into `seen`. -/
def extract_go (seen : List ConnId) : List Packet → List SigInfo
  | [] => []
  | p :: ps =>
    if p.hasIP = true ∧ p.hasTCP = true then
      if p.dport ≠ 443 ∧ p.sport ≠ 443 then extract_go seen ps
      else if connId p ∈ seen then extract_go seen ps
      else if p.hasRaw = true then
        match parse_tls_client_hello p.payload with
        | some t => mkSigInfo p t :: extract_go (connId p :: seen) ps
        | none => extract_go seen ps
      else extract_go seen ps
    else extract_go seen ps

/-- `extract_ja4_from_pcap` of `src/scripts/ja4_improved.py` (the per-file
loop; the pcap I/O wrapper is outside the core). -/
def extract_ja4_from_pcap (pkts : List Packet) : List SigInfo :=
  extract_go [] pkts

/-! ### The aggregator of `calculate_all_improved_ja4.py` (`process_all_pcaps`) -/

/-- The keys of the `sig_counts` defaultdict in first-occurrence order
(Python dictionaries iterate in insertion order). -/
def firstKeys (l : List String) : List String :=
  l.foldl (fun ks s => if s ∈ ks then ks else ks ++ [s]) []

/-- The scan Python's `max(..., key=lambda x: x[1])` performs over the
`(signature, count)` items: the running best is replaced only on a STRICT
increase, so the first item attaining the maximum wins. -/
def pickBest (sigs ks : List String) (b : String × Nat) : String × Nat :=
  ks.foldl
    (fun best k' =>
      if sigs.count k' > sigs.count best.1 then (k', sigs.count k') else best)
    b

/-- `max(sig_counts.items(), key=lambda x: x[1])`: Python's `max` keeps the
first element attaining the maximum, so ties go to the earliest-inserted
key.  `none` exactly when the signature list is empty. -/
def most_common (sigs : List String) : Option (String × Nat) :=
  match firstKeys sigs with
  | [] => none
  | k :: ks => some (pickBest sigs ks (k, sigs.count k))

/-- The three printed consistency classes of `process_all_pcaps`
(`Fully consistent` / `Mostly consistent` / `Low consistency`), named as in
the specification. -/
inductive ConsistencyKind where
  | Full
  | Majority
  | Mixed
deriving DecidableEq, Repr

/-- Per-framework aggregate of `process_all_pcaps` (the `results[framework]`
entry plus the printed consistency classification). -/
structure AggregateResult where
  signature : String
  count : Nat
  total : Nat
  unique : Nat
  consistency_class : ConsistencyKind
deriving DecidableEq, Repr

/-- The aggregation step of `process_all_pcaps` for one framework's
signature list (`none` mirrors the `if sig_counts:` guard on empty input).
The source compares Python floats: `consistent / total >= 0.67`.  This is
modelled by the exact rational comparison `100 * count ≥ 67 * total`; the
two agree on every quotient not within one double-precision rounding step
of 0.67 — in particular on every concrete input appearing in the claims
(e.g. 2/3, where both comparisons are false since 200 < 201). -/
def process_signatures (sigs : List String) : Option AggregateResult :=
  match most_common sigs with
  | none => none
  | some mc =>
    some { signature := mc.1
           count := mc.2
           total := sigs.length
           unique := (firstKeys sigs).length
           consistency_class :=
             if (firstKeys sigs).length = 1 then ConsistencyKind.Full
             else if 100 * mc.2 ≥ 67 * sigs.length then ConsistencyKind.Majority
             else ConsistencyKind.Mixed }

/-! ### Specification-side definitions used to state the claims -/

/-- A packet with source and destination endpoints exchanged (same flow seen
in the opposite direction). -/
def swapEndpoints (p : Packet) : Packet :=
  { p with src := p.dst, dst := p.src, sport := p.dport, dport := p.sport }

/-- The flow key recorded inside an emitted `SigInfo` (recomputable from its
stored endpoints; equals the `connId` of the packet that produced it). -/
def sigKey (o : SigInfo) : ConnId := sort2 (o.src, o.sport) (o.dst, o.dport)

/-- The conditions under which the loop body of `extract_ja4_from_pcap`
accepts a packet, apart from the seen-set check: IP and TCP layers present,
one port equal to 443, a `Raw` layer, and a successful ClientHello parse. -/
def packetEligible (p : Packet) : Prop :=
  p.hasIP = true ∧ p.hasTCP = true ∧ (p.dport = 443 ∨ p.sport = 443) ∧
    p.hasRaw = true ∧ (parse_tls_client_hello p.payload).isSome = true

instance (p : Packet) : Decidable (packetEligible p) := by
  unfold packetEligible; exact inferInstance

/-- The observation a single packet yields when accepted: the `SigInfo`
built from its parse result (empty when the payload does not parse). -/
def obsOf (p : Packet) : List SigInfo :=
  match parse_tls_client_hello p.payload with
  | some t => [mkSigInfo p t]
  | none => []

/-- Specification-side description of the deduplicator's per-flow output:
the observation of the first packet of flow `k` that passes every
acceptance check, or nothing if no such packet exists. -/
def firstFlowObservation (k : ConnId) (pkts : List Packet) : List SigInfo :=
  match (pkts.filter (fun p => decide (connId p = k ∧ packetEligible p))).head? with
  | some p => obsOf p
  | none => []

/-! ### Concrete byte buffers used in the claims' verdicts -/

/-- A ClientHello laid out the way `parse_tls_client_hello` actually walks
the bytes (no client-version field inside the handshake body): record
header, handshake header, 32-byte random at 9–40, session-ID length 0 at
41, cipher block length 4 at 42–43 with ciphers `0x1301, 0x1302`,
compression length 1 + method at 48–49, extensions length 8 at 50–51, and
two 4-byte extension headers (types 0 and 16) at 52–59.  60 bytes. -/
def codeValidHello : List Nat :=
  [0x16, 3, 3, 0, 100, 1, 0, 0, 96] ++ List.replicate 32 0 ++
  [0, 0, 4, 0x13, 1, 0x13, 2, 1, 0, 0, 8, 0, 0, 0, 0, 0, 0x10, 0, 0]

/-- A wire-conformant TLS ClientHello: record header (version `0x0301`),
handshake header, 2-byte client version `0x0303` at 9–10, 32-byte random
`0xAA…` at 11–42, session-ID length 0 at 43, cipher block length 2 at
44–45 with cipher `0x1301`, compression length 1 + method at 48–49,
extensions length 0 at 50–51.  52 bytes. -/
def realHelloC1 : List Nat :=
  [0x16, 3, 1, 0, 100, 1, 0, 0, 70, 3, 3] ++ List.replicate 32 0xAA ++
  [0, 0, 2, 0x13, 1, 1, 0, 0, 0]

/-- `realHelloC1` with the two client-version bytes of the handshake body
removed — exactly the misaligned layout the parser expects.  50 bytes. -/
def shiftedHelloC1 : List Nat :=
  [0x16, 3, 1, 0, 100, 1, 0, 0, 70] ++ List.replicate 32 0xAA ++
  [0, 0, 2, 0x13, 1, 1, 0, 0, 0]

/-- A handshake buffer whose declared cipher-suite block length is the odd
number 5: after the four bytes `0x13 0x01 0x13 0x02` the declared block
ends with the single byte `x` (index 48); `y` (index 49) is the first byte
after the declared block.  Compression length 0 at index 50, extensions
length 0 at 51–52.  53 bytes. -/
def oddCipherHello (x y : Nat) : List Nat :=
  [0x16, 3, 3, 0, 100, 1, 0, 0, 60] ++ List.replicate 32 0 ++
  [0, 0, 5, 0x13, 1, 0x13, 2, x, y, 0, 0, 0]

/-- A handshake buffer whose declared extensions block length (field at
48–49) is 2, so the declared block is bytes 50–51, while the buffer
continues well beyond: the 4-byte extension header at 50–53 (type
`0x0010` = 16, length 0) starts inside the declared block but ends outside
it.  56 bytes. -/
def cexC5 : List Nat :=
  [0x16, 3, 3, 0, 100, 1, 0, 0, 60] ++ List.replicate 32 0 ++
  [0, 0, 2, 0x13, 1, 1, 0, 0, 2, 0, 0x10, 0, 0, 0, 0]

/-! ## Claim verdicts -/

/-- Claim C1 (code bug): the parser does NOT read the session-ID length from
offset 38 of the handshake body (offset 43 of the record).  After the 4-byte
handshake header it skips only the 32-byte random — never the 2-byte client
version of the body — and reads the session-ID length at record offset 41.
On the wire-conformant ClientHello `realHelloC1` it therefore misreads a
random byte (`0xAA` = 170) as the session-ID length, runs the offset past
the buffer and returns `none`; on the same bytes with the body's two
client-version bytes deleted (`shiftedHelloC1`, which places the session-ID
length at record offset 41) it parses successfully. -/
theorem c1_session_id_len_read_two_bytes_early :
    parse_tls_client_hello realHelloC1 = none ∧
    parse_tls_client_hello shiftedHelloC1 =
      some { version := 0x0301, cipher_suites := [0x1301], extensions := [],
             alpn := false, sni := false } := by
  decide

/-- Claim C2, counterexample: on `["A","A","B"]` the aggregator does not
classify the result as `Majority`: the source compares
`consistent / total >= 0.67`, and `2 / 3 < 0.67` (200 < 201), so the
result falls to the low-consistency (`Mixed`) branch. -/
theorem c2_counterexample_majority :
    (process_signatures ["A", "A", "B"]).map AggregateResult.consistency_class =
      some ConsistencyKind.Mixed ∧
    ConsistencyKind.Mixed ≠ ConsistencyKind.Majority := by
  decide

/-- Claim C2 as amended: for `["A","A","B"]` the aggregate has dominant
`"A"`, dominant count 2, total 3, distinct count 2 — as the claim states —
but its consistency class is `Mixed`, not `Majority`, because 2/3 does not
reach the 0.67 threshold (`100 * 2 < 67 * 3`). -/
theorem c2_amended_mixed :
    process_signatures ["A", "A", "B"] =
      some { signature := "A", count := 2, total := 3, unique := 2,
             consistency_class := ConsistencyKind.Mixed } ∧
    100 * 2 < 67 * 3 := by
  decide

/-- Claim C3, counterexample: for the tied input `["B","A"]` the
aggregator's dominant fingerprint is `"B"` — the first one encountered in
the counting dictionary's insertion order — not the lexicographically
smallest of the tied pair, which is `"A"`. -/
theorem c3_counterexample_tiebreak :
    (process_signatures ["B", "A"]).map AggregateResult.signature = some "B" ∧
    ("A" : String) < "B" := by
  constructor
  · decide
  · rw [String.lt_iff_toList_lt]
    decide

/-- Membership in the key-collecting fold of `firstKeys`. -/
theorem mem_foldl_keys (l : List String) :
    ∀ (acc : List String) (x : String),
      (x ∈ l.foldl (fun ks s => if s ∈ ks then ks else ks ++ [s]) acc) ↔
        x ∈ acc ∨ x ∈ l := by
  induction l with
  | nil => simp
  | cons s rest ih =>
    intro acc x
    simp only [List.foldl_cons]
    rw [ih]
    by_cases hs : s ∈ acc
    · rw [if_pos hs]
      constructor
      · rintro (h | h)
        · exact Or.inl h
        · exact Or.inr (List.mem_cons_of_mem _ h)
      · rintro (h | h)
        · exact Or.inl h
        · rcases List.mem_cons.mp h with rfl | h
          · exact Or.inl hs
          · exact Or.inr h
    · rw [if_neg hs]
      constructor
      · rintro (h | h)
        · rcases List.mem_append.mp h with h | h
          · exact Or.inl h
          · rw [List.mem_singleton.mp h]
            exact Or.inr (List.mem_cons_self _ _)
        · exact Or.inr (List.mem_cons_of_mem _ h)
      · rintro (h | h)
        · exact Or.inl (List.mem_append.mpr (Or.inl h))
        · rcases List.mem_cons.mp h with rfl | h
          · exact Or.inl (List.mem_append.mpr (Or.inr (by simp)))
          · exact Or.inr h

/-- `firstKeys` has exactly the members of the original list. -/
theorem mem_firstKeys (l : List String) (x : String) :
    x ∈ firstKeys l ↔ x ∈ l := by
  unfold firstKeys
  rw [mem_foldl_keys]
  simp

/-- The running-maximum scan: its result is the base or one of the scanned
keys, never decreases the base's count, and dominates every scanned key's
count. -/
theorem pickBest_spec (sigs : List String) :
    ∀ (ks : List String) (b : String × Nat),
      ((pickBest sigs ks b).1 = b.1 ∨ (pickBest sigs ks b).1 ∈ ks) ∧
      sigs.count b.1 ≤ sigs.count (pickBest sigs ks b).1 ∧
      ∀ k ∈ ks, sigs.count k ≤ sigs.count (pickBest sigs ks b).1 := by
  intro ks
  induction ks with
  | nil =>
    intro b
    exact ⟨Or.inl rfl, le_refl _, by simp⟩
  | cons k ks ih =>
    intro b
    have hstep : pickBest sigs (k :: ks) b =
        pickBest sigs ks
          (if sigs.count k > sigs.count b.1 then (k, sigs.count k) else b) := rfl
    by_cases hgt : sigs.count k > sigs.count b.1
    · rw [hstep, if_pos hgt]
      obtain ⟨rmem, rle, rall⟩ := ih (k, sigs.count k)
      refine ⟨?_, ?_, ?_⟩
      · rcases rmem with h | h
        · exact Or.inr (by rw [h]; exact List.mem_cons_self _ _)
        · exact Or.inr (List.mem_cons_of_mem _ h)
      · exact le_trans (le_of_lt hgt) rle
      · intro k' hk'
        rcases List.mem_cons.mp hk' with rfl | h
        · exact rle
        · exact rall k' h
    · rw [hstep, if_neg hgt]
      obtain ⟨rmem, rle, rall⟩ := ih b
      refine ⟨?_, rle, ?_⟩
      · rcases rmem with h | h
        · exact Or.inl h
        · exact Or.inr (List.mem_cons_of_mem _ h)
      · intro k' hk'
        rcases List.mem_cons.mp hk' with rfl | h
        · exact le_trans (not_lt.mp hgt) rle
        · exact rall k' h

/-- Claim C3 as amended: the dominant fingerprint is one of the supplied
fingerprints and its occurrence count is maximal, but on ties the
aggregator keeps the FIRST fingerprint encountered (dictionary insertion
order), not the lexicographically smallest — so the result depends on the
order in which the fingerprints were supplied: `["B","A"]` yields `"B"`
while `["A","B"]` yields `"A"`. -/
theorem c3_amended_first_encountered :
    (∀ sigs : List String, sigs ≠ [] →
        ∃ d, (process_signatures sigs).map AggregateResult.signature = some d ∧
          d ∈ sigs ∧ ∀ s ∈ sigs, sigs.count s ≤ sigs.count d) ∧
    (process_signatures ["B", "A"]).map AggregateResult.signature = some "B" ∧
    (process_signatures ["A", "B"]).map AggregateResult.signature = some "A" := by
  refine ⟨?_, by decide, by decide⟩
  intro sigs hne
  have hk : firstKeys sigs ≠ [] := by
    obtain ⟨s, hs⟩ := List.exists_mem_of_ne_nil sigs hne
    intro h0
    have hmem := (mem_firstKeys sigs s).mpr hs
    rw [h0] at hmem
    simp at hmem
  obtain ⟨k, ks, hks⟩ := List.exists_cons_of_ne_nil hk
  have hmc : most_common sigs = some (pickBest sigs ks (k, sigs.count k)) := by
    unfold most_common
    rw [hks]
  obtain ⟨hmem, hbase, hall⟩ := pickBest_spec sigs ks (k, sigs.count k)
  refine ⟨(pickBest sigs ks (k, sigs.count k)).1, ?_, ?_, ?_⟩
  · unfold process_signatures
    rw [hmc]
    rfl
  · have : (pickBest sigs ks (k, sigs.count k)).1 ∈ k :: ks := by
      rcases hmem with h | h
      · simp [h]
      · exact List.mem_cons_of_mem _ h
    rw [← hks] at this
    exact (mem_firstKeys sigs _).mp this
  · intro s hs
    have : s ∈ k :: ks := by
      rw [← hks]
      exact (mem_firstKeys sigs s).mpr hs
    rcases List.mem_cons.mp this with rfl | h
    · exact hbase
    · exact hall s h

/-- Witness for `c3_amended_first_encountered` on the concrete tied input
`["B","A"]`. -/
theorem c3_amended_first_encountered_witness :
    ∃ d, (process_signatures ["B", "A"]).map AggregateResult.signature = some d ∧
      d ∈ ["B", "A"] ∧
      ∀ s ∈ ["B", "A"], List.count s ["B", "A"] ≤ List.count d ["B", "A"] :=
  c3_amended_first_encountered.1 ["B", "A"] (by decide)

/-- Claim C4, counterexample: with a declared odd cipher-block length of 5
and the block bytes `0x13 0x01 0x13 0x02 0xAB` followed by `0xCD`, the
parser reads three (= ⌈5/2⌉, not ⌊5/2⌋ = 2) cipher codes: the trailing
odd byte `0xAB` is not ignored but becomes the high byte of the extra code
`0xABCD`, whose low byte lies outside the declared block. -/
theorem c4_counterexample_odd_cipher :
    (parse_tls_client_hello (oddCipherHello 0xAB 0xCD)).map TlsData.cipher_suites =
      some [0x1301, 0x1302, 0xABCD] ∧
    ([0x1301, 0x1302, 0xABCD] : List Nat).length ≠ 5 / 2 := by
  decide

/-- Claim C4 as amended: `parse_tls_client_hello` runs the cipher loop for
`(L + 1) / 2` iterations, which for odd `L` is `⌊L/2⌋ + 1`, not `⌊L/2⌋`.
Whenever the buffer is long enough, the loop reads exactly `k` big-endian
u16 codes at consecutive 2-byte steps and leaves the offset at
`offset + 2k` — so for odd `L` the trailing declared byte becomes the high
byte of a final code whose low byte is the byte after the declared block,
and the compression-methods length is then read at `blockStart + L + 1`,
one byte past the declared block's end.  The concrete conjunct shows the
whole parse doing this for `L = 5`: three codes, the last one `0xABCD`
pairing the trailing declared byte `0xAB` with the out-of-block byte
`0xCD`, and the compression field read at index 50 (so the extensions
list is read from 51 onwards and comes out empty). -/
theorem c4_amended_ceil_ciphers :
    (∀ (raw : List Nat) (offset k : Nat), offset + 2 * k ≤ raw.length →
        read_cipher_fields raw offset k =
          ((List.range k).map (fun i => readU16 raw (offset + 2 * i)),
            offset + 2 * k)) ∧
    (∀ L : Nat, L % 2 = 1 → (L + 1) / 2 = L / 2 + 1) ∧
    parse_tls_client_hello (oddCipherHello 0xAB 0xCD) =
      some { version := 0x0303, cipher_suites := [0x1301, 0x1302, 0xABCD],
             extensions := [], alpn := false, sni := false } := by
  refine ⟨?_, by omega, by decide⟩
  intro raw offset k
  induction k generalizing offset with
  | zero => intro _; simp [read_cipher_fields]
  | succ k ih =>
    intro hlen
    have hcond : ¬ raw.length ≤ offset + 1 := by omega
    have ihs := ih (offset + 2) (by omega)
    simp only [read_cipher_fields, if_neg hcond, ihs, List.range_succ_eq_map,
      List.map_cons, List.map_map, Prod.mk.injEq]
    refine ⟨?_, by omega⟩
    simp only [Nat.mul_zero, Nat.add_zero]
    refine congrArg₂ List.cons rfl ?_
    apply List.map_congr_left
    intro i _
    simp only [Function.comp_apply]
    congr 1
    omega

/-- Witness for `c4_amended_ceil_ciphers`: the loop characterization applied
to the concrete buffer `oddCipherHello 0xAB 0xCD` at block start 44 with
`k = (5 + 1) / 2 = 3` iterations. -/
theorem c4_amended_ceil_ciphers_witness :
    read_cipher_fields (oddCipherHello 0xAB 0xCD) 44 3 =
      ([0x1301, 0x1302, 0xABCD], 50) :=
  (c4_amended_ceil_ciphers.1 (oddCipherHello 0xAB 0xCD) 44 3 (by decide)).trans
    (by decide)

/-- Claim C5, counterexample: in `cexC5` the declared extensions block is
bytes 50–51 (length 2), but the extension header at 50–53 — which extends
two bytes past the declared block's end — is still recorded: the loop only
requires the header's first byte to lie inside the declared block, so the
collected extension list is `[16]`, not `[]` as the claim predicts. -/
theorem c5_counterexample_header_past_block :
    (parse_tls_client_hello cexC5).map TlsData.extensions = some [16] ∧
    ([16] : List Nat) ≠ [] := by
  decide

/-- Claim C6, counterexample: `codeValidHello` truncated to 56 bytes has a
declared extensions block (length 8, bytes 52–59) that overruns the
buffer, yet `parse_tls_client_hello` does not return a failure: it returns
a successful parse carrying the one extension whose header fit. -/
theorem c6_counterexample_truncation_success :
    parse_tls_client_hello (codeValidHello.take 56) =
      some { version := 0x0303, cipher_suites := [0x1301, 0x1302],
             extensions := [0], alpn := false, sni := true } ∧
    56 < codeValidHello.length := by
  decide

/-- Claim C5 as amended: every extension type the extensions loop collects
is read at a position `p` whose FIRST byte lies inside the declared block
(`p < endPos`) and whose full 4-byte header lies inside the buffer
(`p + 4 ≤ raw.length`); iteration stops at the first position violating
either bound, keeping what was collected.  The correction: the recorded
header need not lie entirely inside the declared block — only its starting
byte must — as the concrete conjunct shows (`cexC5`'s recorded header
occupies bytes 50–53 while its declared block ends after byte 51). -/
theorem c5_amended_header_start :
    (∀ (raw : List Nat) (endPos pos fuel t : Nat),
        t ∈ read_extensions_fuel raw endPos pos fuel →
        ∃ p, pos ≤ p ∧ p < endPos ∧ p + 4 ≤ raw.length ∧ t = readU16 raw p) ∧
    (parse_tls_client_hello cexC5).map TlsData.extensions = some [16] := by
  refine ⟨?_, by decide⟩
  intro raw endPos pos fuel t
  induction fuel generalizing pos with
  | zero =>
    intro ht
    simp [read_extensions_fuel] at ht
  | succ fuel ih =>
    intro ht
    simp only [read_extensions_fuel] at ht
    by_cases hc : pos < endPos ∧ pos + 4 ≤ raw.length
    · rw [if_pos hc] at ht
      rcases List.mem_cons.mp ht with h | h
      · exact ⟨pos, le_refl _, hc.1, hc.2, h⟩
      · obtain ⟨p, hp1, hp2, hp3, hp4⟩ := ih _ h
        exact ⟨p, by omega, hp2, hp3, hp4⟩
    · rw [if_neg hc] at ht
      simp at ht

/-- Witness for `c5_amended_header_start`: the loop of `cexC5` (declared
block end 52, entry position 50) collects the type 16, and the theorem
produces its in-block, in-buffer read position. -/
theorem c5_amended_header_start_witness :
    ∃ p, 50 ≤ p ∧ p < 52 ∧ p + 4 ≤ cexC5.length ∧ 16 = readU16 cexC5 p :=
  c5_amended_header_start.1 cexC5 52 50 2 16 (by decide)

/-- Claim C6 as amended: every buffer of length 0–4 and every buffer whose
first byte is not `0x16` is rejected (`none`); truncating the reference
ClientHello `codeValidHello` anywhere before the end of the
extensions-block length field (offsets 0–51) also yields `none`; but — the
correction — truncating at or after that point (offsets ≥ 52) yields a
SUCCESSFUL parse carrying the extensions collected before the truncation
point, not a failure, even though the declared extensions length overruns
the buffer. -/
theorem c6_amended_truncation :
    (∀ raw : List Nat, raw.length < 5 → parse_tls_client_hello raw = none) ∧
    (∀ raw : List Nat, raw.getD 0 0 ≠ 0x16 → parse_tls_client_hello raw = none) ∧
    (∀ t : Nat, t < 52 → parse_tls_client_hello (codeValidHello.take t) = none) ∧
    (∀ t : Nat, 52 ≤ t →
        (parse_tls_client_hello (codeValidHello.take t)).isSome = true) := by
  refine ⟨?_, ?_, by decide, ?_⟩
  · intro raw h
    simp [parse_tls_client_hello, h]
  · intro raw h
    by_cases h5 : raw.length < 5
    · simp [parse_tls_client_hello, h5]
    · unfold parse_tls_client_hello
      rw [if_neg h5, if_pos h]
  · intro t ht
    by_cases h61 : t < 61
    · exact (by decide :
        ∀ t : Nat, t < 61 → 52 ≤ t →
          (parse_tls_client_hello (codeValidHello.take t)).isSome = true) t h61 ht
    · have hlen : codeValidHello.length ≤ t := by
        have h60 : codeValidHello.length = 60 := by decide
        omega
      rw [List.take_of_length_le hlen]
      decide

/-- Witness for `c6_amended_truncation`: the empty buffer and a mid-cipher
truncation are rejected; the 56-byte truncation parses successfully. -/
theorem c6_amended_truncation_witness :
    parse_tls_client_hello ([] : List Nat) = none ∧
    parse_tls_client_hello (codeValidHello.take 30) = none ∧
    (parse_tls_client_hello (codeValidHello.take 56)).isSome = true :=
  ⟨c6_amended_truncation.1 [] (by decide),
   c6_amended_truncation.2.2.1 30 (by decide),
   c6_amended_truncation.2.2.2 56 (by decide)⟩

/-- Python's `sorted` yields the same list on any two permutations of the
same multiset of numbers. -/
theorem pySorted_eq_of_perm {l1 l2 : List Nat} (h : l1.Perm l2) :
    pySorted l1 = pySorted l2 :=
  List.eq_of_perm_of_sorted
    (((List.perm_insertionSort (· ≤ ·) l1).trans h).trans
      (List.perm_insertionSort (· ≤ ·) l2).symm)
    (List.sorted_insertionSort (· ≤ ·) l1)
    (List.sorted_insertionSort (· ≤ ·) l2)

/-- Claim C7 (confirmed): the fingerprint depends on `cipher_suites` and
`extensions` only through their multisets — permuting either list (keeping
the other fields equal) yields the identical fingerprint string, because
the encoder sorts both lists before hex-joining and hashing and uses only
their lengths elsewhere. -/
theorem c7_order_invariance (t1 t2 : TlsData)
    (hv : t1.version = t2.version) (ha : t1.alpn = t2.alpn)
    (hs : t1.sni = t2.sni)
    (hc : t1.cipher_suites.Perm t2.cipher_suites)
    (he : t1.extensions.Perm t2.extensions) :
    calculate_ja4_improved t1 = calculate_ja4_improved t2 := by
  unfold calculate_ja4_improved ja4_part1 sortedHexJoined
  rw [hv, ha, hs, hc.length_eq, he.length_eq, pySorted_eq_of_perm hc,
    pySorted_eq_of_perm he]

/-- Witness for `c7_order_invariance` on concrete permuted lists. -/
theorem c7_order_invariance_witness :
    calculate_ja4_improved
      { version := 0x0303, cipher_suites := [2, 1], extensions := [5, 3],
        alpn := true, sni := false } =
    calculate_ja4_improved
      { version := 0x0303, cipher_suites := [1, 2], extensions := [3, 5],
        alpn := true, sni := false } :=
  c7_order_invariance _ _ rfl rfl rfl (by decide) (by decide)

/-- Claim C8 (confirmed): the fingerprint decomposes into the documented
prefix followed by the two hash segments; the version tag maps `0x0301`,
`0x0302`, `0x0303`, `0x0304` to `"t10"`, `"t11"`, `"t12"`, `"t13"` and
every other version value to `"t13"`; the SNI flag is `"d"`/`"i"` and the
ALPN flag `"h2"`/`"00"`; the two counts are clamped at 99 and rendered as
exactly two decimal digits, so 150 cipher suites render `"99"`. -/
theorem c8_prefix_format :
    (∀ t : TlsData, ∃ ch eh, calculate_ja4_improved t =
        version_map_get t.version ++ (if t.sni then "d" else "i") ++
        format02 (min t.cipher_suites.length 99) ++
        format02 (min t.extensions.length 99) ++
        (if t.alpn then "h2" else "00") ++ "_" ++ ch ++ "_" ++ eh) ∧
    version_map_get 0x0301 = "t10" ∧
    version_map_get 0x0302 = "t11" ∧
    version_map_get 0x0303 = "t12" ∧
    version_map_get 0x0304 = "t13" ∧
    (∀ v : Nat, v ≠ 0x0301 → v ≠ 0x0302 → v ≠ 0x0303 → v ≠ 0x0304 →
        version_map_get v = "t13") ∧
    (∀ n : Nat, n < 100 → (format02 n).length = 2) ∧
    (∀ t : TlsData, t.cipher_suites.length = 150 →
        format02 (min t.cipher_suites.length 99) = "99") := by
  refine ⟨?_, rfl, rfl, rfl, rfl, ?_, ?_, ?_⟩
  · intro t
    exact ⟨_, _, rfl⟩
  · intro v h1 h2 h3 h4
    simp [version_map_get, h1, h2, h3, h4]
  · decide
  · intro t h
    rw [h]
    decide

/-- Strict tuple order is asymmetric. -/
theorem epLt_asymm (a b : Endpoint) : epLt a b → ¬ epLt b a := by
  intro h1 h2
  rcases h1 with h | ⟨he, hp⟩
  · rcases h2 with h' | ⟨he', _⟩
    · exact absurd h' (lt_asymm h)
    · rw [he'] at h
      exact lt_irrefl _ h
  · rcases h2 with h' | ⟨he', hp'⟩
    · rw [← he] at h'
      exact lt_irrefl _ h'
    · exact absurd hp' (lt_asymm hp)

/-- The tuple order is total: mutually incomparable endpoints are equal. -/
theorem epLt_eq_of_not (a b : Endpoint) (h1 : ¬ epLt a b) (h2 : ¬ epLt b a) :
    a = b := by
  unfold epLt at h1 h2
  push_neg at h1 h2
  obtain ⟨h1a, h1b⟩ := h1
  obtain ⟨h2a, h2b⟩ := h2
  have heq : a.1 = b.1 := le_antisymm h2a h1a
  have hp : a.2 = b.2 := le_antisymm (h2b heq.symm) (h1b heq)
  exact Prod.ext heq hp

/-- Sorting a two-element list does not depend on the order of the inputs. -/
theorem sort2_comm (a b : Endpoint) : sort2 a b = sort2 b a := by
  unfold sort2
  by_cases h1 : epLt b a
  · rw [if_pos h1, if_neg (epLt_asymm b a h1)]
  · by_cases h2 : epLt a b
    · rw [if_neg h1, if_pos h2]
    · have heq : b = a := epLt_eq_of_not b a h1 h2
      rw [if_neg h1, if_neg h2, heq]

/-- Swapping a packet's source and destination leaves its flow key fixed. -/
theorem connId_swapEndpoints (p : Packet) :
    connId (swapEndpoints p) = connId p := by
  unfold connId swapEndpoints
  exact sort2_comm _ _

/-- Unfolding `firstFlowObservation` over the head packet. -/
theorem firstFlowObservation_cons (k : ConnId) (p : Packet) (l : List Packet) :
    firstFlowObservation k (p :: l) =
      if connId p = k ∧ packetEligible p then obsOf p
      else firstFlowObservation k l := by
  unfold firstFlowObservation
  rw [List.filter_cons]
  by_cases hc : connId p = k ∧ packetEligible p
  · rw [if_pos (decide_eq_true hc), if_pos hc]
    rfl
  · rw [if_neg (fun h => hc (of_decide_eq_true h)), if_neg hc]

/-- Per-flow behaviour of the packet loop: restricted to one flow key `k`,
the output is empty when `k` was already seen, and otherwise is exactly the
observation of the first packet of flow `k` that passes every acceptance
check — packets of other flows and failed packets of flow `k` have no
influence. -/
theorem extract_go_filter (k : ConnId) :
    ∀ (pkts : List Packet) (seen : List ConnId),
      (extract_go seen pkts).filter (fun o => decide (sigKey o = k)) =
        if k ∈ seen then [] else firstFlowObservation k pkts := by
  intro pkts
  induction pkts with
  | nil =>
    intro seen
    simp [extract_go, firstFlowObservation]
  | cons p ps ih =>
    intro seen
    by_cases h1 : p.hasIP = true ∧ p.hasTCP = true
    · by_cases h2 : p.dport ≠ 443 ∧ p.sport ≠ 443
      · have hne : ¬ packetEligible p := by
          intro hE
          rcases hE.2.2.1 with h | h
          · exact h2.1 h
          · exact h2.2 h
        have hgo : extract_go seen (p :: ps) = extract_go seen ps := by
          simp only [extract_go]
          rw [if_pos h1, if_pos h2]
        rw [hgo, firstFlowObservation_cons k p ps,
          if_neg (show ¬(connId p = k ∧ packetEligible p) from
            fun hc => hne hc.2), ih seen]
      · by_cases h3 : connId p ∈ seen
        · have hgo : extract_go seen (p :: ps) = extract_go seen ps := by
            simp only [extract_go]
            rw [if_pos h1, if_neg h2, if_pos h3]
          rw [hgo, ih seen, firstFlowObservation_cons k p ps]
          by_cases hk : k ∈ seen
          · rw [if_pos hk, if_pos hk]
          · rw [if_neg hk, if_neg hk]
            have hck : ¬ (connId p = k ∧ packetEligible p) := by
              rintro ⟨rfl, _⟩
              exact hk h3
            rw [if_neg hck]
        · by_cases h4 : p.hasRaw = true
          · cases hparse : parse_tls_client_hello p.payload with
            | none =>
              have hne : ¬ packetEligible p := by
                intro hE
                have := hE.2.2.2.2
                rw [hparse] at this
                simp at this
              have hgo : extract_go seen (p :: ps) = extract_go seen ps := by
                simp only [extract_go]
                rw [if_pos h1, if_neg h2, if_neg h3, if_pos h4, hparse]
              rw [hgo, firstFlowObservation_cons k p ps,
                if_neg (show ¬(connId p = k ∧ packetEligible p) from
            fun hc => hne hc.2), ih seen]
            | some t =>
              have hports : p.dport = 443 ∨ p.sport = 443 := by
                by_cases hd : p.dport = 443
                · exact Or.inl hd
                · right
                  by_contra hs
                  exact h2 ⟨hd, hs⟩
              have hE : packetEligible p :=
                ⟨h1.1, h1.2, hports, h4, by rw [hparse]; rfl⟩
              have hgo : extract_go seen (p :: ps) =
                  mkSigInfo p t :: extract_go (connId p :: seen) ps := by
                simp only [extract_go]
                rw [if_pos h1, if_neg h2, if_neg h3, if_pos h4, hparse]
              rw [hgo, List.filter_cons]
              by_cases hck : connId p = k
              · subst hck
                rw [if_pos (decide_eq_true
                    (show sigKey (mkSigInfo p t) = connId p from rfl)),
                  ih (connId p :: seen), if_pos (List.mem_cons_self _ _),
                  if_neg h3, firstFlowObservation_cons, if_pos ⟨rfl, hE⟩]
                unfold obsOf
                rw [hparse]
              · rw [if_neg (show ¬ decide (sigKey (mkSigInfo p t) = k) = true from
                    fun h => hck (of_decide_eq_true h)),
                  ih (connId p :: seen)]
                have hmem : k ∈ connId p :: seen ↔ k ∈ seen := by
                  constructor
                  · intro h
                    rcases List.mem_cons.mp h with h | h
                    · exact absurd h.symm hck
                    · exact h
                  · exact List.mem_cons_of_mem _
                by_cases hk : k ∈ seen
                · rw [if_pos (hmem.mpr hk), if_pos hk]
                · rw [if_neg (fun h => hk (hmem.mp h)), if_neg hk,
                    firstFlowObservation_cons, if_neg (fun hc => hck hc.1)]
          · have hne : ¬ packetEligible p := fun hE => h4 hE.2.2.2.1
            have hgo : extract_go seen (p :: ps) = extract_go seen ps := by
              simp only [extract_go]
              rw [if_pos h1, if_neg h2, if_neg h3, if_neg h4]
            rw [hgo, firstFlowObservation_cons k p ps,
              if_neg (show ¬(connId p = k ∧ packetEligible p) from
            fun hc => hne hc.2), ih seen]
    · have hne : ¬ packetEligible p := fun hE => h1 ⟨hE.1, hE.2.1⟩
      have hgo : extract_go seen (p :: ps) = extract_go seen ps := by
        simp only [extract_go]
        rw [if_neg h1]
      rw [hgo, firstFlowObservation_cons k p ps,
        if_neg (show ¬(connId p = k ∧ packetEligible p) from
          fun hc => hne hc.2), ih seen]

/-- The packet loop never emits two observations with the same flow key,
and never emits an observation whose key was already in the seen set. -/
theorem extract_go_nodup :
    ∀ (pkts : List Packet) (seen : List ConnId),
      ((extract_go seen pkts).map sigKey).Nodup ∧
      ∀ o ∈ extract_go seen pkts, sigKey o ∉ seen := by
  intro pkts
  induction pkts with
  | nil =>
    intro seen
    simp [extract_go]
  | cons p ps ih =>
    intro seen
    by_cases h1 : p.hasIP = true ∧ p.hasTCP = true
    · by_cases h2 : p.dport ≠ 443 ∧ p.sport ≠ 443
      · have hgo : extract_go seen (p :: ps) = extract_go seen ps := by
          simp only [extract_go]
          rw [if_pos h1, if_pos h2]
        rw [hgo]
        exact ih seen
      · by_cases h3 : connId p ∈ seen
        · have hgo : extract_go seen (p :: ps) = extract_go seen ps := by
            simp only [extract_go]
            rw [if_pos h1, if_neg h2, if_pos h3]
          rw [hgo]
          exact ih seen
        · by_cases h4 : p.hasRaw = true
          · cases hparse : parse_tls_client_hello p.payload with
            | none =>
              have hgo : extract_go seen (p :: ps) = extract_go seen ps := by
                simp only [extract_go]
                rw [if_pos h1, if_neg h2, if_neg h3, if_pos h4, hparse]
              rw [hgo]
              exact ih seen
            | some t =>
              have hgo : extract_go seen (p :: ps) =
                  mkSigInfo p t :: extract_go (connId p :: seen) ps := by
                simp only [extract_go]
                rw [if_pos h1, if_neg h2, if_neg h3, if_pos h4, hparse]
              rw [hgo]
              obtain ⟨hnd, hout⟩ := ih (connId p :: seen)
              have hkey : sigKey (mkSigInfo p t) = connId p := rfl
              constructor
              · rw [List.map_cons, List.nodup_cons]
                refine ⟨?_, hnd⟩
                intro hmem
                obtain ⟨o, ho, hko⟩ := List.mem_map.mp hmem
                have := hout o ho
                rw [hko, hkey] at this
                exact this (List.mem_cons_self _ _)
              · intro o ho
                rcases List.mem_cons.mp ho with rfl | ho
                · rw [hkey]
                  exact h3
                · intro hsk
                  exact hout o ho (List.mem_cons_of_mem _ hsk)
          · have hgo : extract_go seen (p :: ps) = extract_go seen ps := by
              simp only [extract_go]
              rw [if_pos h1, if_neg h2, if_neg h3, if_neg h4]
            rw [hgo]
            exact ih seen
    · have hgo : extract_go seen (p :: ps) = extract_go seen ps := by
        simp only [extract_go]
        rw [if_neg h1]
      rw [hgo]
      exact ih seen

/-- Claim C9 (confirmed): the flow key is unordered (swapping source and
destination endpoints yields the same key); restricted to any one flow,
the pipeline's output is exactly the observation of the first packet of
that flow passing every acceptance check — so a failed packet does not
mark its flow as seen and a later packet of the same flow can still
produce the observation, while packets of other flows have no influence;
and no two emitted observations share a flow key. -/
theorem c9_deduplicator :
    (∀ p : Packet, connId (swapEndpoints p) = connId p) ∧
    (∀ (pkts : List Packet) (k : ConnId),
        (extract_ja4_from_pcap pkts).filter (fun o => decide (sigKey o = k)) =
          firstFlowObservation k pkts) ∧
    (∀ pkts : List Packet, ((extract_ja4_from_pcap pkts).map sigKey).Nodup) := by
  refine ⟨connId_swapEndpoints, ?_, ?_⟩
  · intro pkts k
    unfold extract_ja4_from_pcap
    rw [extract_go_filter k pkts [], if_neg (List.not_mem_nil k)]
  · intro pkts
    exact (extract_go_nodup pkts []).1

/-- Claim C10 (confirmed): a packet whose TCP ports are both different from
443 is skipped before the payload is even examined — it emits no
observation and leaves the seen-flow state unchanged — even if its payload
is a well-formed ClientHello. -/
theorem c10_port_filter (seen : List ConnId) (p : Packet) (ps : List Packet)
    (hs : p.sport ≠ 443) (hd : p.dport ≠ 443) :
    extract_go seen (p :: ps) = extract_go seen ps := by
  by_cases h1 : p.hasIP = true ∧ p.hasTCP = true
  · simp only [extract_go]
    rw [if_pos h1, if_pos ⟨hd, hs⟩]
  · simp only [extract_go]
    rw [if_neg h1]

/-- Witness for `c10_port_filter`: a TCP packet on ports 8080 → 80 whose
payload parses as a valid ClientHello still yields no observation. -/
theorem c10_port_filter_witness :
    (parse_tls_client_hello codeValidHello).isSome = true ∧
    extract_go [] [{ hasIP := true, hasTCP := true, src := "10.0.0.1",
                     dst := "10.0.0.2", sport := 8080, dport := 80,
                     hasRaw := true, payload := codeValidHello }] = [] :=
  ⟨by decide,
   (c10_port_filter [] _ [] (by decide) (by decide)).trans rfl⟩

/-- Witness for `c8_prefix_format`: the hypothesis-bearing conjuncts applied
at the unknown version `0x9999`, the count 7, and a 150-cipher parse
result. -/
theorem c8_prefix_format_witness :
    version_map_get 0x9999 = "t13" ∧ (format02 7).length = 2 ∧
    format02 (min (List.replicate 150 (0 : Nat)).length 99) = "99" :=
  ⟨c8_prefix_format.2.2.2.2.2.1 0x9999 (by decide) (by decide) (by decide)
      (by decide),
   c8_prefix_format.2.2.2.2.2.2.1 7 (by decide),
   c8_prefix_format.2.2.2.2.2.2.2
     { version := 0, cipher_suites := List.replicate 150 0, extensions := [],
       alpn := false, sni := false } (by decide)⟩

end Ja4
